import Mathlib

/-!
Shallow embedding of `rce_minimal_prices_2025.py`, a single-file pipeline that
fetches quarter-hourly RCE price records from the PSE API (with OData-style
pagination), averages them per hour, selects for each calendar day the hour
with the minimal average price (earliest hour on ties), and writes the rows
to a CSV file.

Prices are modelled as rationals (`ℚ`); timestamps as a record of calendar
fields with minute resolution.  A raw API record is a pair of optional
fields, where the outer `Option` models presence of the JSON key in the
record dictionary and the inner `Option` models the outcome of the coercions
`pd.to_datetime(..., errors="coerce")` / `pd.to_numeric(..., errors="coerce")`
(`none` standing for `NaT` / `NaN`, which `dropna` removes).
-/

namespace RCE

/-- Configuration constant `API_URL` from the source. -/
def API_URL : String := "https://api.raporty.pse.pl/api/rce-pln"

/-- Configuration constant `START_DATE` from the source. -/
def START_DATE : String := "2025-01-01"

/-- Configuration constant `END_DATE` from the source. -/
def END_DATE : String := "2025-12-31"

/-- Configuration constant `OUTPUT_CSV` from the source. -/
def OUTPUT_CSV : String := "minimalne_ceny_godzinowe_2025.csv"

/-- A calendar date, as produced by `.dt.date` on a pandas datetime column. -/
@[ext]
structure Date where
  year : Nat
  month : Nat
  day : Nat
deriving DecidableEq, Repr

/-- A timestamp with minute resolution, the granularity of the `udtczas`
field after parsing. -/
@[ext]
structure Timestamp where
  year : Nat
  month : Nat
  day : Nat
  hour : Nat
  minute : Nat
deriving DecidableEq, Repr

/-- The calendar date of a timestamp (`.dt.date`). -/
def dateOfTs (t : Timestamp) : Date :=
  ⟨t.year, t.month, t.day⟩

/-- Lexicographic order on dates, the order Python uses to compare
`datetime.date` values. -/
def Date.le (a b : Date) : Prop :=
  a.year < b.year ∨ (a.year = b.year ∧
    (a.month < b.month ∨ (a.month = b.month ∧ a.day ≤ b.day)))

/-- Strict lexicographic order on dates. -/
def Date.lt (a b : Date) : Prop :=
  a.year < b.year ∨ (a.year = b.year ∧
    (a.month < b.month ∨ (a.month = b.month ∧ a.day < b.day)))

instance : DecidableRel Date.le := by
  intro a b; unfold Date.le; infer_instance

instance : DecidableRel Date.lt := by
  intro a b; unfold Date.lt; infer_instance

/-- Lexicographic (chronological) order on timestamps. -/
def Timestamp.le (a b : Timestamp) : Prop :=
  a.year < b.year ∨ (a.year = b.year ∧
    (a.month < b.month ∨ (a.month = b.month ∧
      (a.day < b.day ∨ (a.day = b.day ∧
        (a.hour < b.hour ∨ (a.hour = b.hour ∧ a.minute ≤ b.minute)))))))

instance : DecidableRel Timestamp.le := by
  intro a b; unfold Timestamp.le; infer_instance

instance : IsTotal Timestamp Timestamp.le :=
  ⟨by intro a b; unfold Timestamp.le; omega⟩

instance : IsTrans Timestamp Timestamp.le :=
  ⟨by intro a b c h1 h2; unfold Timestamp.le at *; omega⟩

/-- One raw record of the `value` array.  `udtczas = none` / `rce_pln = none`
means the JSON key is absent from the record dictionary (pandas fills `NaN`);
`some none` means the key is present but fails coercion (`NaT` / `NaN`);
`some (some v)` is a successfully coerced value. -/
structure RawRecord where
  udtczas : Option (Option Timestamp)
  rce_pln : Option (Option Rat)
deriving DecidableEq, Repr

/-- Column check `"udtczas" in df`: the column exists iff some record dictionary has the
key (pandas builds the column set as the union of the records' keys). -/
def hasUdtczasColumn (data : List RawRecord) : Bool :=
  data.any fun r => r.udtczas.isSome

/-- Column check `"rce_pln" in df`: the column exists iff some record dictionary has the
key. -/
def hasRceColumn (data : List RawRecord) : Bool :=
  data.any fun r => r.rce_pln.isSome

/-- Per-record outcome of the coercion block
(`to_datetime`/`to_numeric` with `errors="coerce"` followed by
`dropna(subset=["udtczas", "rce_pln"])`): a record survives iff both fields
are present and parse. -/
def coerceRecord (r : RawRecord) : Option (Timestamp × Rat) :=
  match r.udtczas, r.rce_pln with
  | some (some t), some (some p) => some (t, p)
  | _, _ => none

/-- The coerced record list: rows remaining after `dropna`. -/
def coerced (data : List RawRecord) : List (Timestamp × Rat) :=
  data.filterMap coerceRecord

/-- Hour flooring `df["udtczas"].dt.floor("H")`: truncate a timestamp to its hour. -/
def floorHour (t : Timestamp) : Timestamp :=
  { t with minute := 0 }

/-- The prices of the coerced records belonging to the hour bucket `h`
(one `groupby("godzina")` group, projected onto `rce_pln`). -/
def groupPrices (rs : List (Timestamp × Rat)) (h : Timestamp) : List Rat :=
  (rs.filter fun r => floorHour r.1 = h).map Prod.snd

/-- Arithmetic mean of a list of rationals (`.mean()`). -/
def listMean (xs : List Rat) : Rat :=
  xs.sum / (xs.length : Rat)

/-- The distinct hour keys of the coerced data, ascending — `groupby`
sorts its keys ascending. -/
def hourKeys (rs : List (Timestamp × Rat)) : List Timestamp :=
  List.insertionSort Timestamp.le ((rs.map fun r => floorHour r.1).dedup)

/-- Hourly averaging `df.groupby("godzina", as_index=False)["rce_pln"].mean()`: one row per
distinct floored hour, carrying the mean price of its group. -/
def hourlyAverages (rs : List (Timestamp × Rat)) : List (Timestamp × Rat) :=
  (hourKeys rs).map fun h => (h, listMean (groupPrices rs h))

/-- The sort key of `sort_values(by=["data", "cena_godzinna", "godzina"])`:
date, then price ascending, then hour ascending, lexicographically.  In the
pipeline the hour column is a groupby key, hence duplicate-free, so this
order determines the sorted row order uniquely. -/
def rowLe (a b : Timestamp × Rat) : Prop :=
  Date.lt (dateOfTs a.1) (dateOfTs b.1) ∨
    (dateOfTs a.1 = dateOfTs b.1 ∧
      (a.2 < b.2 ∨ (a.2 = b.2 ∧ Timestamp.le a.1 b.1)))

instance : DecidableRel rowLe := by
  intro a b; unfold rowLe; infer_instance

instance : IsTotal (Timestamp × Rat) rowLe := by
  constructor
  intro a b
  unfold rowLe
  by_cases he : dateOfTs a.1 = dateOfTs b.1
  · rcases lt_trichotomy a.2 b.2 with hp | hp | hp
    · exact .inl (.inr ⟨he, .inl hp⟩)
    · rcases total_of Timestamp.le a.1 b.1 with ht | ht
      · exact .inl (.inr ⟨he, .inr ⟨hp, ht⟩⟩)
      · exact .inr (.inr ⟨he.symm, .inr ⟨hp.symm, ht⟩⟩)
    · exact .inr (.inr ⟨he.symm, .inl hp⟩)
  · have : Date.lt (dateOfTs a.1) (dateOfTs b.1) ∨
        Date.lt (dateOfTs b.1) (dateOfTs a.1) := by
      have hne : ¬ (dateOfTs a.1).year = (dateOfTs b.1).year ∨
          ¬ (dateOfTs a.1).month = (dateOfTs b.1).month ∨
          ¬ (dateOfTs a.1).day = (dateOfTs b.1).day := by
        by_contra hc
        push_neg at hc
        exact he (Date.ext hc.1 hc.2.1 hc.2.2)
      unfold Date.lt
      omega
    rcases this with hd | hd
    · exact .inl (.inl hd)
    · exact .inr (.inl hd)

instance : IsTrans (Timestamp × Rat) rowLe := by
  constructor
  intro a b c h1 h2
  unfold rowLe at *
  rcases h1 with hd1 | ⟨he1, hx1⟩
  · rcases h2 with hd2 | ⟨he2, _⟩
    · left; unfold Date.lt at *; omega
    · left; rw [← he2]; exact hd1
  · rcases h2 with hd2 | ⟨he2, hx2⟩
    · left; rw [he1]; exact hd2
    · refine .inr ⟨he1.trans he2, ?_⟩
      rcases hx1 with hp1 | ⟨hp1, ht1⟩
      · rcases hx2 with hp2 | ⟨hp2, _⟩
        · exact .inl (hp1.trans hp2)
        · exact .inl (hp2 ▸ hp1)
      · rcases hx2 with hp2 | ⟨hp2, ht2⟩
        · exact .inl (hp1 ▸ hp2)
        · exact .inr ⟨hp1.trans hp2, trans_of Timestamp.le ht1 ht2⟩

/-- The hourly rows sorted by date, price, hour. -/
def sortedHourly (hourly : List (Timestamp × Rat)) : List (Timestamp × Rat) :=
  List.insertionSort rowLe hourly

/-- Helper for `firstPerDate`: scan the rows left to right, keeping the
first row of each date not yet in `seen`. -/
def firstPerDateAux (seen : List Date) :
    List (Timestamp × Rat) → List (Date × Timestamp × Rat)
  | [] => []
  | r :: rs =>
      if dateOfTs r.1 ∈ seen then firstPerDateAux seen rs
      else (dateOfTs r.1, r.1, r.2) :: firstPerDateAux (dateOfTs r.1 :: seen) rs

/-- Daily reduction `groupby("data", as_index=False).first()` applied to a date-sorted row
list: emit the first row of each date, in order of first occurrence of the
date (which is ascending date order on a date-sorted input). -/
def firstPerDate (l : List (Timestamp × Rat)) : List (Date × Timestamp × Rat) :=
  firstPerDateAux [] l

/-- Lines 98–102 of the source: sort the hourly rows by
`["data", "cena_godzinna", "godzina"]` and keep the first row of each date
group. -/
def dailyMin (hourly : List (Timestamp × Rat)) : List (Date × Timestamp × Rat) :=
  firstPerDate (sortedHourly hourly)

/-- Left-pad the decimal rendering of `n` with zeros to width 2. -/
def pad2 (n : Nat) : String :=
  if n < 10 then "0" ++ toString n else toString n

/-- Left-pad the decimal rendering of `n` with zeros to width 4
(`datetime.date.isoformat` pads the year to four digits). -/
def pad4 (n : Nat) : String :=
  if n < 10 then "000" ++ toString n
  else if n < 100 then "00" ++ toString n
  else if n < 1000 then "0" ++ toString n
  else toString n

/-- Rendering `str(datetime.date)`: ISO `YYYY-MM-DD`. -/
def isoDate (d : Date) : String :=
  pad4 d.year ++ "-" ++ pad2 d.month ++ "-" ++ pad2 d.day

/-- Rendering `.dt.strftime("%Y-%m-%d %H:%M")`. -/
def fmtHM (t : Timestamp) : String :=
  pad4 t.year ++ "-" ++ pad2 t.month ++ "-" ++ pad2 t.day ++ " " ++
    pad2 t.hour ++ ":" ++ pad2 t.minute

/-- One row of the result table, with the source's output column names.
The price column is numeric in the DataFrame; only the two date/hour
columns are formatted to strings. -/
structure OutRow where
  data : String
  godzina_min : String
  cena_min_godzinna_PLN_MWh : Rat
deriving DecidableEq, Repr

/-- Formatting of one daily-minimum row (lines 104–113 of the source). -/
def formatRow (x : Date × Timestamp × Rat) : OutRow :=
  ⟨isoDate x.1, fmtHM x.2.1, x.2.2⟩

/-- The error taxonomy of the script.  Every classified failure in the
source is a `raise SystemExit(message)`; `ioError` stands for an exception
escaping `to_csv`, caught by the top-level `except Exception` handler. -/
inductive ScriptError where
  | transport (msg : String)
  | invalidJson (msg : String)
  | missingValue
  | emptyResult
  | missingFields
  | noValidData
  | ioError (msg : String)
deriving DecidableEq, Repr

/-- Function `compute_daily_minimums` (lines 68–115 of the source): check the two
required columns, coerce and drop bad rows, fail if nothing remains,
average per hour, reduce per day, format. -/
def compute_daily_minimums (data : List RawRecord) : Except ScriptError (List OutRow) :=
  if hasUdtczasColumn data ∧ hasRceColumn data then
    let rs := coerced data
    if rs.isEmpty then .error .noValidData
    else .ok ((dailyMin (hourlyAverages rs)).map formatRow)
  else .error .missingFields

/-- The query parameters sent on the first request (lines 34–38). -/
structure QueryParams where
  format : String
  filter : String
  orderby : String
deriving DecidableEq, Repr

/-- The concrete `params` dictionary of the source. -/
def defaultParams : QueryParams :=
  ⟨"json", "doba ge " ++ START_DATE ++ " and doba le " ++ END_DATE, "udtczas"⟩

/-- One HTTP GET request: a URL and optional query parameters. -/
structure HttpRequest where
  url : String
  params : Option QueryParams
deriving DecidableEq, Repr

/-- What the environment answers to one GET request.  `transportError`
covers `RequestException` (network failure or a non-2xx status raised by
`raise_for_status`); `invalidJson` covers `ValueError` from `.json()`;
`payload` is a parsed JSON body with its optional `value` array and
optional `@odata.nextLink` string. -/
inductive ApiResponse where
  | transportError (msg : String)
  | invalidJson (msg : String)
  | payload (value : Option (List RawRecord)) (nextLink : Option String)
deriving DecidableEq

/-- The request issued for the loop URL `url`: parameters are attached
exactly when the URL equals `API_URL` (line 45:
`params=params if next_url == API_URL else None`). -/
def mkReq (url : String) : HttpRequest :=
  ⟨url, if url = API_URL then some defaultParams else none⟩

/-- The `while next_url:` loop of `fetch_rce_data` (lines 43–60), driven by
an environment `api` mapping requests to responses.  `none` as the loop URL
models Python's `None`; a `some ""` link also ends the loop because the
empty string is falsy.  `fuel` bounds the number of iterations: the result
`none` means the fuel ran out, i.e. the modelled run follows a longer (or
non-terminating) chain of links. -/
def fetchLoop (api : HttpRequest → ApiResponse) :
    Nat → Option String → List RawRecord →
    Option (Except ScriptError (List RawRecord))
  | _, none, acc => some (.ok acc)
  | fuel, some url, acc =>
    if url = "" then some (.ok acc)
    else
      match fuel with
      | 0 => none
      | fuel + 1 =>
        match api (mkReq url) with
        | .transportError msg => some (.error (.transport msg))
        | .invalidJson msg => some (.error (.invalidJson msg))
        | .payload none _ => some (.error .missingValue)
        | .payload (some recs) link => fetchLoop api fuel link (acc ++ recs)

/-- Function `fetch_rce_data` (lines 27–65): run the pagination loop from `API_URL`
and fail with the empty-result error when no records were collected. -/
def fetch_rce_data (api : HttpRequest → ApiResponse) (fuel : Nat) :
    Option (Except ScriptError (List RawRecord)) :=
  match fetchLoop api fuel (some API_URL) [] with
  | some (.ok recs) =>
      if recs.isEmpty then some (.error .emptyResult) else some (.ok recs)
  | r => r

/-- The continuation chain after the first response: `urls` are the
successive `@odata.nextLink` values and `pages` the `value` arrays served
for them.  Each link is followed with a request carrying NO query
parameters; the links are genuine fresh URLs (non-empty, different from the
base URL, where the source would re-attach the first request's
parameters).  The link returned with each page is the next URL of the
chain, and the last page carries none. -/
def ServesTail (api : HttpRequest → ApiResponse) :
    List String → List (List RawRecord) → Prop
  | [], [] => True
  | url :: urls, page :: rest =>
      url ≠ "" ∧ url ≠ API_URL ∧
        api ⟨url, none⟩ = .payload (some page) urls.head? ∧
        ServesTail api urls rest
  | _, _ => False

/-- The environment of one run: the API behaviour, a fuel bound for the
pagination loop, and whether `to_csv` raises (`some msg` modelling an
I/O exception with message `msg`). -/
structure Env where
  api : HttpRequest → ApiResponse
  fuel : Nat
  writeError : Option String

/-- Function `main` (lines 118–127): fetch, aggregate, write; the first failing
stage short-circuits the rest.  On success the result is the written row
count.  `none` again means the fetch loop ran out of fuel. -/
def mainRun (env : Env) : Option (Except ScriptError Nat) :=
  match fetch_rce_data env.api env.fuel with
  | none => none
  | some (.error e) => some (.error e)
  | some (.ok recs) =>
    match compute_daily_minimums recs with
    | .error e => some (.error e)
    | .ok rows =>
      match env.writeError with
      | some msg => some (.error (.ioError msg))
      | none => some (.ok rows.length)

/-- The message each error reaches the error stream with.  Classified
errors are raised as `SystemExit(message)`; `SystemExit` derives from
`BaseException`, so the top-level `except Exception` does not catch it and
the interpreter itself prints the message to stderr and exits with status 1
(the status Python uses for a non-integer `SystemExit` argument).  An
exception escaping `to_csv` is an `Exception`, caught at lines 133–135,
printed to stderr, followed by `sys.exit(1)`. -/
def errMessage : ScriptError → String
  | .transport msg => "Błąd podczas pobierania danych: " ++ msg
  | .invalidJson msg => "Nieprawidłowy format JSON w odpowiedzi API: " ++ msg
  | .missingValue => "Brak danych w odpowiedzi API (pole \x27value\x27)."
  | .emptyResult => "Nie zwrócono żadnych danych z API."
  | .missingFields =>
      "W danych brakuje wymaganych pól \x27udtczas\x27 lub \x27rce_pln\x27."
  | .noValidData => "Brak poprawnych danych po wstępnej obróbce."
  | .ioError msg => msg

/-- The observable outcome of one process run. -/
structure ProcessResult where
  exitCode : Nat
  stdout : Option String
  stderr : Option String
deriving DecidableEq, Repr

/-- The success message printed to stdout (line 127). -/
def successMessage (n : Nat) : String :=
  "Zapisano " ++ toString n ++ " wierszy do pliku: " ++ OUTPUT_CSV

/-- The whole process (lines 130–135 plus the interpreter's handling of
`SystemExit`): any error is printed to stderr and the process exits with
status 1; on success the row-count report goes to stdout and the process
exits with status 0. -/
def runProcess (env : Env) : Option ProcessResult :=
  match mainRun env with
  | none => none
  | some (.error e) => some ⟨1, none, some (errMessage e)⟩
  | some (.ok n) => some ⟨0, some (successMessage n), none⟩

deriving instance DecidableEq for Except

/-! Order lemmas -/

theorem dateLe_refl (a : Date) : Date.le a a := by
  unfold Date.le; omega

theorem Date.lt_irrefl (a : Date) : ¬ Date.lt a a := by
  unfold Date.lt; omega

theorem Date.le_of_lt {a b : Date} (h : Date.lt a b) : Date.le a b := by
  unfold Date.lt at h; unfold Date.le; omega

theorem Date.lt_of_le_of_ne {a b : Date} (h : Date.le a b) (hne : a ≠ b) :
    Date.lt a b := by
  rw [ne_eq, Date.ext_iff] at hne
  unfold Date.le at h; unfold Date.lt; omega

theorem tsLe_refl (a : Timestamp) : Timestamp.le a a := by
  unfold Timestamp.le; omega

theorem rowLe_refl (a : Timestamp × Rat) : rowLe a a :=
  .inr ⟨rfl, .inr ⟨rfl, tsLe_refl a.1⟩⟩

/-- On rows of equal date, `rowLe` orders by price, then hour. -/
theorem rowLe_same_date {a b : Timestamp × Rat} (h : rowLe a b)
    (he : dateOfTs a.1 = dateOfTs b.1) :
    a.2 < b.2 ∨ (a.2 = b.2 ∧ Timestamp.le a.1 b.1) := by
  rcases h with hd | ⟨_, hx⟩
  · exact absurd (he ▸ hd) (Date.lt_irrefl _)
  · exact hx

/-- `rowLe` is monotone on dates. -/
theorem rowLe_date_le {a b : Timestamp × Rat} (h : rowLe a b) :
    Date.le (dateOfTs a.1) (dateOfTs b.1) := by
  rcases h with hd | ⟨he, _⟩
  · exact Date.le_of_lt hd
  · exact he ▸ dateLe_refl _

/-! Properties of the first-row-per-date reduction -/

/-- Every row that `firstPerDateAux` emits is a row of the input, is keyed
by its own date, and its date is not among the already-seen dates. -/
theorem mem_firstPerDateAux {seen : List Date} {l : List (Timestamp × Rat)}
    {d : Date} {h : Timestamp} {p : Rat}
    (hm : (d, h, p) ∈ firstPerDateAux seen l) :
    (h, p) ∈ l ∧ d = dateOfTs h ∧ d ∉ seen := by
  induction l generalizing seen with
  | nil => simp [firstPerDateAux] at hm
  | cons r rs ih =>
    rw [firstPerDateAux] at hm
    by_cases hs : dateOfTs r.1 ∈ seen
    · rw [if_pos hs] at hm
      obtain ⟨h1, h2, h3⟩ := ih hm
      exact ⟨List.mem_cons_of_mem r h1, h2, h3⟩
    · rw [if_neg hs] at hm
      rcases List.mem_cons.mp hm with he | ht
      · simp only [Prod.mk.injEq] at he
        obtain ⟨rfl, rfl, rfl⟩ := he
        exact ⟨List.mem_cons_self r rs, rfl, hs⟩
      · obtain ⟨h1, h2, h3⟩ := ih ht
        refine ⟨List.mem_cons_of_mem r h1, h2, fun hin => h3 ?_⟩
        exact List.mem_cons_of_mem _ hin

/-- On a `rowLe`-sorted input, each emitted row has the weakly smallest
price among the input rows of its date, and on price ties the
chronologically smallest hour. -/
theorem firstPerDateAux_min {seen : List Date} {l : List (Timestamp × Rat)}
    {d : Date} {h : Timestamp} {p : Rat}
    (hsort : l.Pairwise rowLe)
    (hm : (d, h, p) ∈ firstPerDateAux seen l) :
    ∀ y ∈ l, dateOfTs y.1 = d →
      p ≤ y.2 ∧ (y.2 = p → Timestamp.le h y.1) := by
  induction l generalizing seen with
  | nil => simp [firstPerDateAux] at hm
  | cons r rs ih =>
    rw [List.pairwise_cons] at hsort
    obtain ⟨hr, hps⟩ := hsort
    rw [firstPerDateAux] at hm
    by_cases hs : dateOfTs r.1 ∈ seen
    · rw [if_pos hs] at hm
      have hnot := (mem_firstPerDateAux hm).2.2
      intro y hy hyd
      rcases List.mem_cons.mp hy with rfl | hyt
      · exact absurd (hyd ▸ hs) hnot
      · exact ih hps hm y hyt hyd
    · rw [if_neg hs] at hm
      rcases List.mem_cons.mp hm with he | ht
      · simp only [Prod.mk.injEq] at he
        obtain ⟨rfl, rfl, rfl⟩ := he
        intro y hy hyd
        rcases List.mem_cons.mp hy with rfl | hyt
        · exact ⟨le_refl _, fun _ => tsLe_refl _⟩
        · rcases rowLe_same_date (hr y hyt) hyd.symm with hlt | ⟨heq, hle⟩
          · exact ⟨le_of_lt hlt, fun hcon => absurd (hcon ▸ hlt) (lt_irrefl _)⟩
          · exact ⟨le_of_eq heq, fun _ => hle⟩
      · have hnot := (mem_firstPerDateAux ht).2.2
        intro y hy hyd
        rcases List.mem_cons.mp hy with rfl | hyt
        · exact absurd (hyd ▸ List.mem_cons_self _ seen) hnot
        · exact ih hps ht y hyt hyd

/-- The dates of the rows `firstPerDateAux` emits from `l` are exactly the
dates of rows of `l` that are not already seen. -/
theorem firstPerDateAux_dates_mem {seen : List Date}
    {l : List (Timestamp × Rat)} {d : Date} :
    d ∈ (firstPerDateAux seen l).map Prod.fst ↔
      (d ∉ seen ∧ ∃ y ∈ l, dateOfTs y.1 = d) := by
  induction l generalizing seen with
  | nil => simp [firstPerDateAux]
  | cons r rs ih =>
    rw [firstPerDateAux]
    by_cases hs : dateOfTs r.1 ∈ seen
    · rw [if_pos hs, ih]
      constructor
      · rintro ⟨h1, y, h2, h3⟩
        exact ⟨h1, y, List.mem_cons_of_mem r h2, h3⟩
      · rintro ⟨h1, y, h2, h3⟩
        rcases List.mem_cons.mp h2 with rfl | h2
        · exact absurd (h3 ▸ hs) h1
        · exact ⟨h1, y, h2, h3⟩
    · rw [if_neg hs, List.map_cons]
      simp only [List.mem_cons, ih]
      constructor
      · rintro (rfl | ⟨h1, y, h2, h3⟩)
        · exact ⟨hs, r, .inl rfl, rfl⟩
        · exact ⟨fun hin => h1 (.inr hin), y, .inr h2, h3⟩
      · rintro ⟨h1, y, h2, h3⟩
        rcases h2 with rfl | h2
        · exact .inl h3.symm
        · by_cases hd : d = dateOfTs r.1
          · exact .inl hd
          · refine .inr ⟨?_, y, h2, h3⟩
            rintro (he | hin)
            · exact hd he
            · exact h1 hin

/-- No date is emitted twice. -/
theorem firstPerDateAux_dates_nodup (seen : List Date)
    (l : List (Timestamp × Rat)) :
    ((firstPerDateAux seen l).map Prod.fst).Nodup := by
  induction l generalizing seen with
  | nil => simp [firstPerDateAux]
  | cons r rs ih =>
    rw [firstPerDateAux]
    by_cases hs : dateOfTs r.1 ∈ seen
    · rw [if_pos hs]; exact ih seen
    · rw [if_neg hs, List.map_cons, List.nodup_cons]
      refine ⟨fun hmem => ?_, ih _⟩
      exact (firstPerDateAux_dates_mem.mp hmem).1 (List.mem_cons_self _ seen)

/-- On a `rowLe`-sorted input the emitted dates are strictly increasing. -/
theorem firstPerDateAux_dates_sorted {seen : List Date}
    {l : List (Timestamp × Rat)} (hsort : l.Pairwise rowLe) :
    ((firstPerDateAux seen l).map Prod.fst).Pairwise Date.lt := by
  induction l generalizing seen with
  | nil => simp [firstPerDateAux]
  | cons r rs ih =>
    rw [List.pairwise_cons] at hsort
    obtain ⟨hr, hps⟩ := hsort
    rw [firstPerDateAux]
    by_cases hs : dateOfTs r.1 ∈ seen
    · rw [if_pos hs]; exact ih hps
    · rw [if_neg hs, List.map_cons, List.pairwise_cons]
      refine ⟨fun d hd => ?_, ih hps⟩
      obtain ⟨hd1, y, hy, hyd⟩ := firstPerDateAux_dates_mem.mp hd
      have hle : Date.le (dateOfTs r.1) d := hyd ▸ rowLe_date_le (hr y hy)
      refine Date.lt_of_le_of_ne hle fun he => ?_
      exact hd1 (he ▸ List.mem_cons_self _ seen)

/-! Claim theorems -/

/-- Claim C1: every row emitted by the daily reduction is one of the hourly
buckets, is keyed by that bucket's calendar date, and among the buckets of
its date it has the lowest average price, with the chronologically earliest
hour among equal-price buckets (the sort by date, price, hour followed by
taking the first row of each date group guarantees this). -/
theorem dailyMin_picks_min_earliest (hourly : List (Timestamp × Rat))
    (d : Date) (h : Timestamp) (p : Rat)
    (hm : (d, h, p) ∈ dailyMin hourly) :
    (h, p) ∈ hourly ∧ dateOfTs h = d ∧
      ∀ y ∈ hourly, dateOfTs y.1 = d →
        p ≤ y.2 ∧ (y.2 = p → Timestamp.le h y.1) := by
  have hperm := List.perm_insertionSort rowLe hourly
  have hsort : (sortedHourly hourly).Pairwise rowLe :=
    List.sorted_insertionSort rowLe hourly
  unfold dailyMin firstPerDate at hm
  obtain ⟨hmem, hdd, -⟩ := mem_firstPerDateAux hm
  refine ⟨hperm.mem_iff.mp hmem, hdd.symm, ?_⟩
  intro y hy hyd
  exact firstPerDateAux_min hsort hm y (hperm.mem_iff.mpr hy) hyd

/-- Witness for C1, the spec's tie-break example: hours 03:00 and 07:00 of
2025-03-01 both average 5 (the daily minimum), hour 04:00 averages 9; the
emitted row picks 03:00. -/
theorem dailyMin_picks_min_earliest_witness :
    ((⟨2025, 3, 1⟩, ⟨2025, 3, 1, 3, 0⟩, (5 : Rat)) ∈
        dailyMin [(⟨2025, 3, 1, 3, 0⟩, 5), (⟨2025, 3, 1, 7, 0⟩, 5),
          (⟨2025, 3, 1, 4, 0⟩, 9)]) ∧
      ((⟨2025, 3, 1, 3, 0⟩, (5 : Rat)) ∈
          [((⟨2025, 3, 1, 3, 0⟩ : Timestamp), (5 : Rat)),
            (⟨2025, 3, 1, 7, 0⟩, 5), (⟨2025, 3, 1, 4, 0⟩, 9)] ∧
        dateOfTs ⟨2025, 3, 1, 3, 0⟩ = ⟨2025, 3, 1⟩ ∧
        ∀ y ∈ [((⟨2025, 3, 1, 3, 0⟩ : Timestamp), (5 : Rat)),
            (⟨2025, 3, 1, 7, 0⟩, 5), (⟨2025, 3, 1, 4, 0⟩, 9)],
          dateOfTs y.1 = ⟨2025, 3, 1⟩ →
            (5 : Rat) ≤ y.2 ∧
              (y.2 = 5 → Timestamp.le ⟨2025, 3, 1, 3, 0⟩ y.1)) :=
  ⟨by decide, dailyMin_picks_min_earliest _ _ _ _ (by decide)⟩

/-- Claim C3: the hourly stage produces exactly one bucket per distinct
floored hour of the coerced data, and each bucket's price is the arithmetic
mean of its group (stated as: the bucket price times the group size equals
the group sum, the group being non-empty). -/
theorem hourlyAverages_buckets (rs : List (Timestamp × Rat)) (hne : rs ≠ []) :
    ((hourlyAverages rs).map Prod.fst).Nodup ∧
    (∀ h, h ∈ (hourlyAverages rs).map Prod.fst ↔
      ∃ r ∈ rs, floorHour r.1 = h) ∧
    (∀ h a, (h, a) ∈ hourlyAverages rs →
      groupPrices rs h ≠ [] ∧
        a * ((groupPrices rs h).length : Rat) = (groupPrices rs h).sum) := by
  have hkeys : (hourlyAverages rs).map Prod.fst = hourKeys rs := by
    unfold hourlyAverages
    rw [List.map_map]
    have hcomp : (Prod.fst ∘ fun h => (h, listMean (groupPrices rs h))) =
        (id : Timestamp → Timestamp) := rfl
    rw [hcomp, List.map_id]
  have hmemkeys : ∀ h, h ∈ hourKeys rs ↔ ∃ r ∈ rs, floorHour r.1 = h := by
    intro h
    unfold hourKeys
    rw [List.mem_insertionSort, List.mem_dedup, List.mem_map]
  have hgrp : ∀ h, (∃ r ∈ rs, floorHour r.1 = h) → groupPrices rs h ≠ [] := by
    rintro h ⟨r, hr, hfl⟩
    have : r.2 ∈ groupPrices rs h := by
      unfold groupPrices
      exact List.mem_map_of_mem _ (List.mem_filter.mpr ⟨hr, by simp [hfl]⟩)
    exact List.ne_nil_of_mem this
  refine ⟨?_, ?_, ?_⟩
  · rw [hkeys]
    exact (List.perm_insertionSort Timestamp.le _).nodup_iff.mpr
      (List.nodup_dedup _)
  · intro h; rw [hkeys]; exact hmemkeys h
  · intro h a hha
    unfold hourlyAverages at hha
    obtain ⟨k, hk, hpair⟩ := List.mem_map.mp hha
    obtain ⟨rfl, rfl⟩ : k = h ∧ listMean (groupPrices rs k) = a := by
      simpa [Prod.ext_iff] using hpair
    have hne2 : groupPrices rs k ≠ [] := hgrp k ((hmemkeys k).mp hk)
    have hlen : ((groupPrices rs k).length : Rat) ≠ 0 :=
      Nat.cast_ne_zero.mpr (List.length_pos.mpr hne2).ne'
    exact ⟨hne2, div_mul_cancel₀ _ hlen⟩

/-- Witness for C3, the spec's averaging example: four quarter-hour records
of hour 05:00 with prices 10, 20, 30, 40 give one bucket whose price
satisfies `a * 4 = 100`, i.e. the mean 25. -/
theorem hourlyAverages_buckets_witness :
    ([((⟨2025, 3, 1, 5, 0⟩ : Timestamp), (10 : Rat)), (⟨2025, 3, 1, 5, 15⟩, 20),
        (⟨2025, 3, 1, 5, 30⟩, 30), (⟨2025, 3, 1, 5, 45⟩, 40)] ≠
      ([] : List (Timestamp × Rat))) ∧
    (((hourlyAverages [((⟨2025, 3, 1, 5, 0⟩ : Timestamp), (10 : Rat)),
        (⟨2025, 3, 1, 5, 15⟩, 20), (⟨2025, 3, 1, 5, 30⟩, 30),
        (⟨2025, 3, 1, 5, 45⟩, 40)]).map Prod.fst).Nodup ∧
      (∀ h, h ∈ (hourlyAverages [((⟨2025, 3, 1, 5, 0⟩ : Timestamp), (10 : Rat)),
          (⟨2025, 3, 1, 5, 15⟩, 20), (⟨2025, 3, 1, 5, 30⟩, 30),
          (⟨2025, 3, 1, 5, 45⟩, 40)]).map Prod.fst ↔
        ∃ r ∈ [((⟨2025, 3, 1, 5, 0⟩ : Timestamp), (10 : Rat)),
          (⟨2025, 3, 1, 5, 15⟩, 20), (⟨2025, 3, 1, 5, 30⟩, 30),
          (⟨2025, 3, 1, 5, 45⟩, 40)], floorHour r.1 = h) ∧
      (∀ h a, (h, a) ∈ hourlyAverages [((⟨2025, 3, 1, 5, 0⟩ : Timestamp), (10 : Rat)),
          (⟨2025, 3, 1, 5, 15⟩, 20), (⟨2025, 3, 1, 5, 30⟩, 30),
          (⟨2025, 3, 1, 5, 45⟩, 40)] →
        groupPrices [((⟨2025, 3, 1, 5, 0⟩ : Timestamp), (10 : Rat)),
          (⟨2025, 3, 1, 5, 15⟩, 20), (⟨2025, 3, 1, 5, 30⟩, 30),
          (⟨2025, 3, 1, 5, 45⟩, 40)] h ≠ [] ∧
          a * ((groupPrices [((⟨2025, 3, 1, 5, 0⟩ : Timestamp), (10 : Rat)),
            (⟨2025, 3, 1, 5, 15⟩, 20), (⟨2025, 3, 1, 5, 30⟩, 30),
            (⟨2025, 3, 1, 5, 45⟩, 40)] h).length : Rat) =
            (groupPrices [((⟨2025, 3, 1, 5, 0⟩ : Timestamp), (10 : Rat)),
              (⟨2025, 3, 1, 5, 15⟩, 20), (⟨2025, 3, 1, 5, 30⟩, 30),
              (⟨2025, 3, 1, 5, 45⟩, 40)] h).sum)) :=
  ⟨by decide, hourlyAverages_buckets _ (by decide)⟩

/-- Claim C9: the daily reduction over the hourly buckets emits exactly one
row per distinct calendar date among the buckets — no duplicate, none
missing — and the rows appear in strictly ascending date order. -/
theorem dailyMin_one_row_per_date (rs : List (Timestamp × Rat))
    (hne : rs ≠ []) :
    ((dailyMin (hourlyAverages rs)).map Prod.fst).Nodup ∧
    (∀ d, d ∈ (dailyMin (hourlyAverages rs)).map Prod.fst ↔
      ∃ y ∈ hourlyAverages rs, dateOfTs y.1 = d) ∧
    ((dailyMin (hourlyAverages rs)).map Prod.fst).Pairwise Date.lt := by
  have hperm := List.perm_insertionSort rowLe (hourlyAverages rs)
  have hsort : (sortedHourly (hourlyAverages rs)).Pairwise rowLe :=
    List.sorted_insertionSort rowLe (hourlyAverages rs)
  unfold dailyMin firstPerDate
  refine ⟨firstPerDateAux_dates_nodup [] _, ?_, firstPerDateAux_dates_sorted hsort⟩
  intro d
  rw [firstPerDateAux_dates_mem]
  simp only [List.not_mem_nil, not_false_iff, true_and]
  constructor
  · rintro ⟨y, hy, hyd⟩; exact ⟨y, hperm.mem_iff.mp hy, hyd⟩
  · rintro ⟨y, hy, hyd⟩; exact ⟨y, hperm.mem_iff.mpr hy, hyd⟩

/-- Witness for C9 on a two-day bucket set: the emitted dates are without
duplicates, are exactly the dates present, and ascend. -/
theorem dailyMin_one_row_per_date_witness :
    ([((⟨2025, 3, 2, 1, 0⟩ : Timestamp), (7 : Rat)), (⟨2025, 3, 1, 5, 0⟩, 9)] ≠
      ([] : List (Timestamp × Rat))) ∧
    (((dailyMin (hourlyAverages [((⟨2025, 3, 2, 1, 0⟩ : Timestamp), (7 : Rat)),
        (⟨2025, 3, 1, 5, 0⟩, 9)])).map Prod.fst).Nodup ∧
      (∀ d, d ∈ (dailyMin (hourlyAverages [((⟨2025, 3, 2, 1, 0⟩ : Timestamp), (7 : Rat)),
          (⟨2025, 3, 1, 5, 0⟩, 9)])).map Prod.fst ↔
        ∃ y ∈ hourlyAverages [((⟨2025, 3, 2, 1, 0⟩ : Timestamp), (7 : Rat)),
          (⟨2025, 3, 1, 5, 0⟩, 9)], dateOfTs y.1 = d) ∧
      ((dailyMin (hourlyAverages [((⟨2025, 3, 2, 1, 0⟩ : Timestamp), (7 : Rat)),
        (⟨2025, 3, 1, 5, 0⟩, 9)])).map Prod.fst).Pairwise Date.lt) :=
  ⟨by decide, dailyMin_one_row_per_date _ (by decide)⟩

/-- Every hour key of the hourly stage is a floored hour, so its minute
field is zero. -/
theorem minute_zero_of_mem_hourKeys {rs : List (Timestamp × Rat)}
    {h : Timestamp} (hk : h ∈ hourKeys rs) : h.minute = 0 := by
  unfold hourKeys at hk
  rw [List.mem_insertionSort, List.mem_dedup, List.mem_map] at hk
  obtain ⟨r, -, rfl⟩ := hk
  rfl

/-- Rendering a minute-zero timestamp with `%Y-%m-%d %H:%M` yields the ISO
date of its calendar date, the padded hour and a literal `:00` minute. -/
theorem fmtHM_of_minute_zero {h : Timestamp} (hm : h.minute = 0) :
    fmtHM h = isoDate (dateOfTs h) ++ " " ++ pad2 h.hour ++ ":00" := by
  unfold fmtHM isoDate dateOfTs
  rw [hm]
  have h0 : pad2 0 = "00" := by decide
  rw [h0]
  simp only [String.append_assoc]
  have h1 : (":" ++ "00" : String) = ":00" := by decide
  rw [h1]

/-- Claim C8: every emitted row renders its date as ISO `YYYY-MM-DD`, its
minimum hour as `YYYY-MM-DD HH:MM` with the minute component literally
`00`, and carries the bucket's average price unchanged. -/
theorem output_row_format (data : List RawRecord) (rows : List OutRow)
    (row : OutRow) (hc : compute_daily_minimums data = .ok rows)
    (hr : row ∈ rows) :
    ∃ d h p, (d, h, p) ∈ dailyMin (hourlyAverages (coerced data)) ∧
      d = dateOfTs h ∧ h.minute = 0 ∧
      row = ⟨isoDate d, isoDate d ++ " " ++ pad2 h.hour ++ ":00", p⟩ := by
  simp only [compute_daily_minimums] at hc
  by_cases hcols : hasUdtczasColumn data ∧ hasRceColumn data
  · rw [if_pos hcols] at hc
    by_cases hemp : (coerced data).isEmpty
    · rw [if_pos hemp] at hc; exact absurd hc (by simp)
    · rw [if_neg hemp] at hc
      obtain rfl : (dailyMin (hourlyAverages (coerced data))).map formatRow
          = rows := by
        exact (Except.ok.injEq _ _).mp hc
      obtain ⟨⟨d, h, p⟩, hx, rfl⟩ := List.mem_map.mp hr
      have hdd : d = dateOfTs h := by
        have := mem_firstPerDateAux (by
          unfold dailyMin firstPerDate at hx; exact hx)
        exact this.2.1
      have hmem : (h, p) ∈ hourlyAverages (coerced data) := by
        have hx2 : ((h, p) : Timestamp × Rat) ∈
            sortedHourly (hourlyAverages (coerced data)) :=
          (mem_firstPerDateAux (by
            unfold dailyMin firstPerDate at hx; exact hx)).1
        exact (List.perm_insertionSort rowLe _).mem_iff.mp hx2
      have hkeys : h ∈ hourKeys (coerced data) := by
        obtain ⟨k, hk, hpair⟩ := List.mem_map.mp hmem
        obtain ⟨rfl, -⟩ : k = h ∧ listMean (groupPrices (coerced data) k) = p := by
          simpa [Prod.ext_iff] using hpair
        exact hk
      have hmin : h.minute = 0 := minute_zero_of_mem_hourKeys hkeys
      refine ⟨d, h, p, hx, hdd, hmin, ?_⟩
      unfold formatRow
      rw [hdd, fmtHM_of_minute_zero hmin]
  · rw [if_neg hcols] at hc; exact absurd hc (by simp)

/-- Witness for C8: one valid record at 2025-01-02 05:30 with price 10
yields the row `("2025-01-02", "2025-01-02 05:00", 10)`, matching the
format contract. -/
theorem output_row_format_witness :
    (compute_daily_minimums [⟨some (some ⟨2025, 1, 2, 5, 30⟩), some (some 10)⟩]
        = .ok [⟨"2025-01-02", "2025-01-02 05:00", 10⟩]) ∧
      (⟨"2025-01-02", "2025-01-02 05:00", 10⟩ : OutRow) ∈
        ([⟨"2025-01-02", "2025-01-02 05:00", 10⟩] : List OutRow) ∧
      ∃ d h p,
        (d, h, p) ∈ dailyMin (hourlyAverages
          (coerced [⟨some (some ⟨2025, 1, 2, 5, 30⟩), some (some 10)⟩])) ∧
        d = dateOfTs h ∧ h.minute = 0 ∧
        (⟨"2025-01-02", "2025-01-02 05:00", 10⟩ : OutRow) =
          ⟨isoDate d, isoDate d ++ " " ++ pad2 h.hour ++ ":00", p⟩ :=
  ⟨by
    simp [compute_daily_minimums, hasUdtczasColumn, hasRceColumn, coerced,
      coerceRecord, hourlyAverages, hourKeys, groupPrices, listMean, floorHour,
      List.insertionSort, List.orderedInsert, List.dedup, dailyMin,
      sortedHourly, firstPerDate, firstPerDateAux, dateOfTs, formatRow,
      isoDate, fmtHM, pad2, pad4]
    decide,
    by decide,
    output_row_format [⟨some (some ⟨2025, 1, 2, 5, 30⟩), some (some 10)⟩]
      [⟨"2025-01-02", "2025-01-02 05:00", 10⟩]
      ⟨"2025-01-02", "2025-01-02 05:00", 10⟩
      (by
        simp [compute_daily_minimums, hasUdtczasColumn, hasRceColumn, coerced,
          coerceRecord, hourlyAverages, hourKeys, groupPrices, listMean, floorHour,
          List.insertionSort, List.orderedInsert, List.dedup, dailyMin,
          sortedHourly, firstPerDate, firstPerDateAux, dateOfTs, formatRow,
          isoDate, fmtHM, pad2, pad4]
        decide)
      (by decide)⟩

/-- Counterexample to Claim C4 as stated: on the input consisting of one
record with neither field present, every record is dropped by coercion,
yet the operation does not fail with the no-valid-data error — it fails
with the missing-required-fields error raised by the column check that
runs first. -/
theorem coercion_iff_counterexample :
    ¬ ((compute_daily_minimums [⟨none, none⟩] = .error .noValidData) ↔
      coerced [⟨none, none⟩] = []) := by decide

/-- Claim C4 (amended with the column precondition): provided each required
field occurs in at least one record, aggregation drops exactly the records
failing coercion, fails with the no-valid-data error iff every record is
dropped, and otherwise computes its result from the surviving records
only. -/
theorem coercion_drops_invalid (data : List RawRecord)
    (hcols : hasUdtczasColumn data = true ∧ hasRceColumn data = true) :
    (compute_daily_minimums data = .error .noValidData ↔ coerced data = []) ∧
    (coerced data ≠ [] →
      compute_daily_minimums data =
        .ok ((dailyMin (hourlyAverages (coerced data))).map formatRow)) := by
  simp only [compute_daily_minimums]
  rw [if_pos ⟨hcols.1, hcols.2⟩]
  by_cases hemp : (coerced data).isEmpty
  · rw [if_pos hemp]
    have hnil : coerced data = [] := by simpa using hemp
    exact ⟨⟨fun _ => hnil, fun _ => rfl⟩, fun hne => absurd hnil hne⟩
  · rw [if_neg hemp]
    have hne : coerced data ≠ [] := by simpa using hemp
    exact ⟨⟨fun hcon => absurd hcon (by simp), fun hcon => absurd hcon hne⟩,
      fun _ => rfl⟩

/-- Witness for the amended C4, the spec's malformed-record-tolerance case:
one record with an unparseable price next to a valid record; both columns
exist, the bad record is dropped, and the result is computed from the
valid one. -/
theorem coercion_drops_invalid_witness :
    (hasUdtczasColumn [⟨some (some ⟨2025, 1, 2, 5, 30⟩), some none⟩,
        ⟨some (some ⟨2025, 1, 2, 6, 0⟩), some (some 10)⟩] = true ∧
      hasRceColumn [⟨some (some ⟨2025, 1, 2, 5, 30⟩), some none⟩,
        ⟨some (some ⟨2025, 1, 2, 6, 0⟩), some (some 10)⟩] = true) ∧
    ((compute_daily_minimums [⟨some (some ⟨2025, 1, 2, 5, 30⟩), some none⟩,
        ⟨some (some ⟨2025, 1, 2, 6, 0⟩), some (some 10)⟩] =
          .error .noValidData ↔
        coerced [⟨some (some ⟨2025, 1, 2, 5, 30⟩), some none⟩,
          ⟨some (some ⟨2025, 1, 2, 6, 0⟩), some (some 10)⟩] = []) ∧
      (coerced [⟨some (some ⟨2025, 1, 2, 5, 30⟩), some none⟩,
          ⟨some (some ⟨2025, 1, 2, 6, 0⟩), some (some 10)⟩] ≠ [] →
        compute_daily_minimums [⟨some (some ⟨2025, 1, 2, 5, 30⟩), some none⟩,
          ⟨some (some ⟨2025, 1, 2, 6, 0⟩), some (some 10)⟩] =
          .ok ((dailyMin (hourlyAverages
            (coerced [⟨some (some ⟨2025, 1, 2, 5, 30⟩), some none⟩,
              ⟨some (some ⟨2025, 1, 2, 6, 0⟩), some (some 10)⟩]))).map
                formatRow))) :=
  ⟨by decide, coercion_drops_invalid _ (by decide)⟩

/-- Counterexample to Claim C5 as stated: the aggregator has a failure mode
outside the error kind named for the coercion step — the missing-fields
check fails first on a record with neither required field. -/
theorem aggregate_failure_counterexample :
    compute_daily_minimums [⟨none, none⟩] = .error .missingFields ∧
      ScriptError.missingFields ≠ ScriptError.noValidData := by decide

/-- Claim C5 (amended): the aggregator is a pure function that either
returns a complete result or fails via exactly one of two error kinds, the
missing-required-fields error or the no-valid-data error — no other failure
mode exists. -/
theorem aggregate_failure_modes (data : List RawRecord) :
    (∃ rows, compute_daily_minimums data = .ok rows) ∨
    compute_daily_minimums data = .error .missingFields ∨
    compute_daily_minimums data = .error .noValidData := by
  simp only [compute_daily_minimums]
  by_cases hcols : hasUdtczasColumn data ∧ hasRceColumn data
  · rw [if_pos hcols]
    by_cases hemp : (coerced data).isEmpty
    · rw [if_pos hemp]; exact .inr (.inr rfl)
    · rw [if_neg hemp]; exact .inl ⟨_, rfl⟩
  · rw [if_neg hcols]; exact .inr (.inl rfl)

/-- Claim C10: when a required field is absent from every record of a
non-empty input, the corresponding column does not exist at all and
aggregation fails with the missing-required-fields error, regardless of
the other field's contents. -/
theorem missing_columns_fail (data : List RawRecord) (hne : data ≠ [])
    (habs : (∀ r ∈ data, r.udtczas = none) ∨ (∀ r ∈ data, r.rce_pln = none)) :
    compute_daily_minimums data = .error .missingFields := by
  simp only [compute_daily_minimums]
  rw [if_neg]
  rintro ⟨h1, h2⟩
  rcases habs with hall | hall
  · rw [hasUdtczasColumn, List.any_eq_true] at h1
    obtain ⟨r, hr, hsome⟩ := h1
    rw [hall r hr] at hsome
    exact Bool.noConfusion hsome
  · rw [hasRceColumn, List.any_eq_true] at h2
    obtain ⟨r, hr, hsome⟩ := h2
    rw [hall r hr] at hsome
    exact Bool.noConfusion hsome

/-- Witness for C10: one record carrying only a price; the timestamp
column does not exist, so aggregation fails with the missing-fields
error. -/
theorem missing_columns_fail_witness :
    ([(⟨none, some (some 5)⟩ : RawRecord)] ≠ []) ∧
    (∀ r ∈ [(⟨none, some (some 5)⟩ : RawRecord)], r.udtczas = none) ∧
    compute_daily_minimums [(⟨none, some (some 5)⟩ : RawRecord)] =
      .error .missingFields :=
  ⟨by decide, by decide,
    missing_columns_fail _ (by decide) (.inl (by decide))⟩

/-! Fetch and pagination -/

/-- One iteration of the pagination loop on a non-empty URL and positive
fuel: dispatch on the environment's response. -/
theorem fetchLoop_step (api : HttpRequest → ApiResponse) (fuel : Nat)
    (url : String) (acc : List RawRecord) (h : url ≠ "") :
    fetchLoop api (fuel + 1) (some url) acc =
      match api (mkReq url) with
      | .transportError msg => some (.error (.transport msg))
      | .invalidJson msg => some (.error (.invalidJson msg))
      | .payload none _ => some (.error .missingValue)
      | .payload (some recs) link => fetchLoop api fuel link (acc ++ recs) := by
  rw [fetchLoop, if_neg h]

/-- Following a served continuation chain consumes exactly its pages, in
order, each fetched from its link with no query parameters attached. -/
theorem fetchLoop_serves (api : HttpRequest → ApiResponse) :
    ∀ (rest : List (List RawRecord)) (urls : List String)
      (acc : List RawRecord) (fuel : Nat),
      ServesTail api urls rest → rest.length ≤ fuel →
      fetchLoop api fuel urls.head? acc = some (.ok (acc ++ rest.flatten)) := by
  intro rest
  induction rest with
  | nil =>
    intro urls acc fuel hst _
    cases urls with
    | nil => simp [fetchLoop]
    | cons u us => exact absurd hst (by simp [ServesTail])
  | cons page rest ih =>
    intro urls acc fuel hst hf
    cases urls with
    | nil => exact absurd hst (by simp [ServesTail])
    | cons url urls =>
      obtain ⟨hne, hnapi, happ, htail⟩ := hst
      cases fuel with
      | zero => simp at hf
      | succ f =>
        rw [List.head?_cons, fetchLoop_step api f url acc hne]
        have hreq : mkReq url = ⟨url, none⟩ := by simp [mkReq, hnapi]
        rw [hreq, happ]
        show fetchLoop api f urls.head? (acc ++ page) =
          some (Except.ok (acc ++ (page :: rest).flatten))
        rw [ih urls (acc ++ page) f htail (by simp at hf; omega)]
        rw [List.flatten_cons, List.append_assoc]

/-- Claim C2 (amended with a non-empty total): if the environment serves a
chain of N pages — the first for the base URL with the source's query
parameters, each further page for its predecessor's continuation link,
requested verbatim with no query parameters, the last page without a link —
and at least one record is served in total, then the fetch succeeds with
exactly the concatenation of the pages' `value` arrays in page order. -/
theorem fetch_follows_pagination (api : HttpRequest → ApiResponse)
    (p0 : List RawRecord) (rest : List (List RawRecord)) (urls : List String)
    (fuel : Nat)
    (h0 : api ⟨API_URL, some defaultParams⟩ = .payload (some p0) urls.head?)
    (ht : ServesTail api urls rest)
    (hfl : (p0 :: rest).flatten ≠ [])
    (hfuel : rest.length < fuel) :
    fetch_rce_data api fuel = some (.ok ((p0 :: rest).flatten)) := by
  unfold fetch_rce_data
  cases fuel with
  | zero => exact absurd hfuel (by omega)
  | succ f =>
    have hst : fetchLoop api (f + 1) (some API_URL) [] =
        fetchLoop api f urls.head? ([] ++ p0) := by
      rw [fetchLoop_step api f API_URL [] (by simp [API_URL])]
      have hreq : mkReq API_URL = ⟨API_URL, some defaultParams⟩ := by
        simp [mkReq]
      rw [hreq, h0]
    rw [hst, fetchLoop_serves api rest urls ([] ++ p0) f ht (by omega)]
    rw [List.flatten_cons] at hfl ⊢
    simp only [List.nil_append]
    rw [if_neg (by simpa using hfl)]

/-- Counterexample to Claim C2 as stated: a single response whose `value`
array is empty and which carries no continuation link.  The claim says the
fetch returns the concatenation of the pages (the empty record list); the
code instead fails with the empty-result error. -/
theorem fetch_pagination_counterexample :
    fetch_rce_data (fun _ => .payload (some []) none) 1 =
      some (.error .emptyResult) ∧
    fetch_rce_data (fun _ => .payload (some []) none) 1 ≠
      some (.ok (([[]] : List (List RawRecord)).flatten)) := by decide

/-- Witness for the amended C2: a two-page chain — the base URL serves one
record and a continuation link, the link serves a second record and no
link — fetched with the concatenation of both pages. -/
theorem fetch_follows_pagination_witness :
    ((fun req : HttpRequest =>
        if req = ⟨"next1", none⟩ then
          .payload (some [⟨some (some ⟨2025, 1, 3, 0, 0⟩), some (some 7)⟩]) none
        else
          ApiResponse.payload (some [⟨some (some ⟨2025, 1, 2, 0, 0⟩), some (some 6)⟩])
            (some "next1"))
        ⟨API_URL, some defaultParams⟩ =
      .payload (some [⟨some (some ⟨2025, 1, 2, 0, 0⟩), some (some 6)⟩])
        (["next1"].head?)) ∧
    ServesTail (fun req : HttpRequest =>
        if req = ⟨"next1", none⟩ then
          .payload (some [⟨some (some ⟨2025, 1, 3, 0, 0⟩), some (some 7)⟩]) none
        else
          ApiResponse.payload (some [⟨some (some ⟨2025, 1, 2, 0, 0⟩), some (some 6)⟩])
            (some "next1"))
      ["next1"] [[⟨some (some ⟨2025, 1, 3, 0, 0⟩), some (some 7)⟩]] ∧
    (([[⟨some (some ⟨2025, 1, 2, 0, 0⟩), some (some 6)⟩],
        [⟨some (some ⟨2025, 1, 3, 0, 0⟩), some (some 7)⟩]] :
          List (List RawRecord)).flatten ≠ []) ∧
    fetch_rce_data (fun req : HttpRequest =>
        if req = ⟨"next1", none⟩ then
          .payload (some [⟨some (some ⟨2025, 1, 3, 0, 0⟩), some (some 7)⟩]) none
        else
          ApiResponse.payload (some [⟨some (some ⟨2025, 1, 2, 0, 0⟩), some (some 6)⟩])
            (some "next1")) 2 =
      some (.ok (([[⟨some (some ⟨2025, 1, 2, 0, 0⟩), some (some 6)⟩],
        [⟨some (some ⟨2025, 1, 3, 0, 0⟩), some (some 7)⟩]] :
          List (List RawRecord)).flatten)) :=
  ⟨by decide, by
      refine ⟨by decide, by decide, by decide, ?_⟩
      simp [ServesTail],
    by decide,
    fetch_follows_pagination _ _ _ ["next1"] 2 (by decide)
      (by
        refine ⟨by decide, by decide, by decide, ?_⟩
        simp [ServesTail])
      (by decide) (by decide)⟩

/-- The pagination loop itself never produces the empty-result error: that
error is raised only by the final record-count check. -/
theorem fetchLoop_no_emptyResult (api : HttpRequest → ApiResponse) :
    ∀ (fuel : Nat) (o : Option String) (acc : List RawRecord),
      fetchLoop api fuel o acc ≠ some (.error .emptyResult) := by
  intro fuel
  induction fuel with
  | zero =>
    intro o acc
    cases o with
    | none => simp [fetchLoop]
    | some url =>
      by_cases h : url = "" <;> simp [fetchLoop, h]
  | succ f ih =>
    intro o acc
    cases o with
    | none => simp [fetchLoop]
    | some url =>
      by_cases h : url = ""
      · simp [fetchLoop, h]
      · rw [fetchLoop_step api f url acc h]
        cases happi : api (mkReq url) with
        | transportError msg => simp
        | invalidJson msg => simp
        | payload value link =>
          cases value with
          | none => simp
          | some recs => exact ih link (acc ++ recs)

/-- Claim C6: the fetch fails with the empty-result error exactly when the
pagination loop completes cleanly (every page parsed, last page without a
continuation link) having collected zero records in total. -/
theorem fetch_empty_result_iff (api : HttpRequest → ApiResponse) (fuel : Nat) :
    fetch_rce_data api fuel = some (.error .emptyResult) ↔
      fetchLoop api fuel (some API_URL) [] = some (.ok []) := by
  rcases hres : fetchLoop api fuel (some API_URL) [] with _ | ⟨e | recs⟩
  · simp [fetch_rce_data, hres]
  · simp only [fetch_rce_data, hres]
    constructor
    · intro hcon
      obtain rfl : e = .emptyResult := by simpa using hcon
      exact absurd hres (fetchLoop_no_emptyResult api fuel _ _)
    · intro hcon; simp at hcon
  · simp only [fetch_rce_data, hres]
    by_cases hemp : recs.isEmpty
    · rw [if_pos hemp]
      obtain rfl : recs = [] := List.isEmpty_iff.mp hemp
      simp
    · rw [if_neg hemp]
      constructor
      · intro hcon; simp at hcon
      · intro hcon
        obtain rfl : recs = [] := by simpa using hcon
        simp at hemp

/-- Witness for C6, the spec's empty-API case: one response with an empty
`value` array and no continuation link makes the fetch fail with the
empty-result error. -/
theorem fetch_empty_result_iff_witness :
    fetch_rce_data (fun _ => ApiResponse.payload (some []) none) 1 =
      some (.error .emptyResult) :=
  (fetch_empty_result_iff (fun _ => ApiResponse.payload (some []) none) 1).mpr
    (by decide)

/-! Process-level behaviour -/

/-- Claim C7: whenever the modelled run terminates, a failing stage makes
the process print that error's message to the error stream and exit with
status 1, and a successful run prints the written row count to standard
output and exits with status 0; the exit status is 0 exactly on success. -/
theorem process_reports_and_exits (env : Env) (r : ProcessResult)
    (h : runProcess env = some r) :
    (∀ e, mainRun env = some (.error e) → r = ⟨1, none, some (errMessage e)⟩) ∧
    (∀ n, mainRun env = some (.ok n) → r = ⟨0, some (successMessage n), none⟩) ∧
    (r.exitCode = 0 ∨ r.exitCode = 1) ∧
    (r.exitCode = 0 ↔ ∃ n, mainRun env = some (.ok n)) := by
  unfold runProcess at h
  cases hm : mainRun env with
  | none => rw [hm] at h; exact Option.noConfusion h
  | some res =>
    rw [hm] at h
    cases res with
    | error e =>
      obtain rfl : r = ⟨1, none, some (errMessage e)⟩ := by simpa using h.symm
      refine ⟨?_, ?_, .inr rfl, ?_⟩
      · intro e2 he2
        obtain rfl : e = e2 := by simpa using he2
        rfl
      · intro n hn
        simp at hn
      · constructor
        · intro hcon; simp at hcon
        · rintro ⟨n, hn⟩
          simp at hn
    | ok n =>
      obtain rfl : r = ⟨0, some (successMessage n), none⟩ := by simpa using h.symm
      refine ⟨?_, ?_, .inl rfl, ?_⟩
      · intro e2 he2
        simp at he2
      · intro n2 hn2
        obtain rfl : n = n2 := by simpa using hn2
        rfl
      · exact ⟨fun _ => ⟨n, rfl⟩, fun _ => rfl⟩

/-- Witness for C7: a successful run — one page with one valid record, a
writable destination — prints the row count report and exits with
status 0. -/
theorem process_reports_and_exits_witness :
    (runProcess ⟨fun _ =>
        ApiResponse.payload (some [⟨some (some ⟨2025, 1, 2, 5, 30⟩), some (some 10)⟩]) none,
      1, none⟩ = some ⟨0, some (successMessage 1), none⟩) ∧
    ((∀ e, mainRun ⟨fun _ =>
        ApiResponse.payload (some [⟨some (some ⟨2025, 1, 2, 5, 30⟩), some (some 10)⟩]) none,
        1, none⟩ = some (.error e) →
        (⟨0, some (successMessage 1), none⟩ : ProcessResult) =
          ⟨1, none, some (errMessage e)⟩) ∧
      (∀ n, mainRun ⟨fun _ =>
          ApiResponse.payload (some [⟨some (some ⟨2025, 1, 2, 5, 30⟩), some (some 10)⟩]) none,
          1, none⟩ = some (.ok n) →
          (⟨0, some (successMessage 1), none⟩ : ProcessResult) =
            ⟨0, some (successMessage n), none⟩) ∧
      ((⟨0, some (successMessage 1), none⟩ : ProcessResult).exitCode = 0 ∨
        (⟨0, some (successMessage 1), none⟩ : ProcessResult).exitCode = 1) ∧
      ((⟨0, some (successMessage 1), none⟩ : ProcessResult).exitCode = 0 ↔
        ∃ n, mainRun ⟨fun _ =>
          ApiResponse.payload (some [⟨some (some ⟨2025, 1, 2, 5, 30⟩), some (some 10)⟩]) none,
          1, none⟩ = some (.ok n))) :=
  ⟨by
    simp [runProcess, mainRun, fetch_rce_data, fetchLoop, mkReq, API_URL,
      compute_daily_minimums, hasUdtczasColumn, hasRceColumn, coerced,
      coerceRecord, hourlyAverages, hourKeys, groupPrices, listMean, floorHour,
      List.insertionSort, List.orderedInsert, List.dedup, dailyMin,
      sortedHourly, firstPerDate, firstPerDateAux, dateOfTs, formatRow,
      isoDate, fmtHM, pad2, pad4],
  process_reports_and_exits _ _ (by
    simp [runProcess, mainRun, fetch_rce_data, fetchLoop, mkReq, API_URL,
      compute_daily_minimums, hasUdtczasColumn, hasRceColumn, coerced,
      coerceRecord, hourlyAverages, hourKeys, groupPrices, listMean, floorHour,
      List.insertionSort, List.orderedInsert, List.dedup, dailyMin,
      sortedHourly, firstPerDate, firstPerDateAux, dateOfTs, formatRow,
      isoDate, fmtHM, pad2, pad4])⟩

end RCE
